import Mathlib

/-!
Verification development for the clipturbo orchestration core:
the dependency-graph workflow scheduler (`src/core/workflow_engine.py`)
and the bounded-concurrency render supervisor
(`src/manim_engine/render_manager.py`), shallowly embedded in Lean.

Conventions of the embedding:
* Python floats used as timestamps are modelled as `Int` (an abstract clock);
  within one scheduling call a single instant `t` is used for start and end
  times, which is immaterial to the properties proved here.
* The asynchronous step handlers are modelled as an oracle
  `Handlers : String → Except String String` giving, per step id, either the
  handler's result or the text of the exception it raises.  Each step runs at
  most once, so a deterministic oracle is faithful.
* Python's in-place mutation of step/job objects is modelled by explicit
  state passing; `executed_steps` (a Python `set` of step ids) is modelled as
  a duplicate-free list.
-/

/-! ## Workflow engine data model (`workflow_engine.py`) -/

inductive StepStatus where
  | pending
  | running
  | completed
  | failed
  | skipped
deriving DecidableEq

inductive WorkflowStatus where
  | created
  | running
  | completed
  | failed
  | cancelled
deriving DecidableEq

/-- `WorkflowStep` dataclass.  The `handler` attribute is represented by the
`Handlers` oracle indexed by the step id (the engine binds each step's handler
from its `step_handlers` dict, also keyed by the step id). -/
structure WorkflowStep where
  id : String
  name : String
  description : String := ""
  dependencies : List String := []
  status : StepStatus := StepStatus.pending
  start_time : Option Int := none
  end_time : Option Int := none
  result : Option String := none
  error : Option String := none
  progress : Nat := 0
deriving DecidableEq

/-- `WorkflowResult` together with the one context key the claims touch
(`context['render_job_id']`); the remaining context keys are opaque to the
scheduler and are not modelled. -/
structure Workflow where
  workflow_id : String
  status : WorkflowStatus
  steps : List WorkflowStep
  start_time : Int
  end_time : Option Int := none
  total_duration : Int := 0
  output_files : List String := []
  error_message : Option String := none
  context_render_job_id : Option String := none
deriving DecidableEq

/-- Outcome oracle for the asynchronous step handlers, indexed by step id. -/
def Handlers : Type := String → Except String String

/-- Step statuses the engine treats as executed
(`[StepStatus.COMPLETED, StepStatus.FAILED, StepStatus.SKIPPED]`). -/
def isTerminal : StepStatus → Bool
  | StepStatus.completed => true
  | StepStatus.failed => true
  | StepStatus.skipped => true
  | _ => false

/-- `WorkflowEngine._execute_step`: mark running, record the start time, call
the handler; on success store the result and mark completed with progress 100;
on any exception record the error text and mark failed.  The `try`/`except`
makes this total: the handler's exception never escapes. -/
def executeStep (h : Handlers) (t : Int) (step : WorkflowStep) : WorkflowStep :=
  let s1 := { step with status := StepStatus.running, start_time := some t }
  match h step.id with
  | Except.ok r =>
      { s1 with result := some r, status := StepStatus.completed,
                progress := 100, end_time := some t }
  | Except.error e =>
      { s1 with status := StepStatus.failed, error := some e, end_time := some t }

/-- The ready set computed at the top of each scheduling iteration of
`_execute_workflow`: steps not yet executed, currently pending, all of whose
dependencies are in `executed_steps` (not necessarily completed). -/
def readySteps (executed : List String) (steps : List WorkflowStep) : List WorkflowStep :=
  steps.filter fun s =>
    !executed.contains s.id && (s.status == StepStatus.pending) &&
      s.dependencies.all (fun d => executed.contains d)

def failedStepsOf (steps : List WorkflowStep) : List WorkflowStep :=
  steps.filter fun s => s.status == StepStatus.failed

def deadlockMessage : String := "工作流存在循环依赖或无法执行的步骤"

def failedMessage (failed : List WorkflowStep) : String :=
  "步骤失败: " ++ String.intercalate ", " (failed.map (·.name))

/-- The `while len(executed_steps) < len(workflow.steps)` loop of
`_execute_workflow`.  Besides the workflow it returns the list of step ids
launched (handed to `_execute_step`, i.e. marked running), in launch order.
`fuel` bounds the number of iterations; any `fuel > |steps|` is enough (each
non-breaking iteration executes at least one new step).  The loop never reads
`workflow.status`; it only writes it in the two `break` branches. -/
def stepLoop (h : Handlers) (t : Int) :
    Nat → List String → List String → Workflow → Workflow × List String
  | 0, _, launched, wf => (wf, launched)
  | fuel + 1, executed, launched, wf =>
    if executed.length < wf.steps.length then
      let ready := readySteps executed wf.steps
      if ready.isEmpty then
        let failed := failedStepsOf wf.steps
        if failed.isEmpty then
          ({ wf with status := WorkflowStatus.failed,
                     error_message := some deadlockMessage }, launched)
        else
          ({ wf with status := WorkflowStatus.failed,
                     error_message := some (failedMessage failed) }, launched)
      else
        let readyIds := ready.map (·.id)
        let steps' := wf.steps.map fun s =>
          if readyIds.contains s.id then executeStep h t s else s
        let executedNow :=
          ((ready.map (executeStep h t)).filter fun s => isTerminal s.status).map (·.id)
        stepLoop h t fuel (executed ++ executedNow) (launched ++ readyIds)
          { wf with steps := steps' }
    else
      (wf, launched)

/-- `WorkflowEngine._execute_workflow`: set the workflow running, run the
scheduling loop, then record end time and total duration and promote a still
running status to completed.  Handler exceptions are caught inside
`_execute_step`, so the outer `except` branch is unreachable and not
modelled. -/
def executeWorkflow (h : Handlers) (t : Int) (fuel : Nat) (wf : Workflow) :
    Workflow × List String :=
  let wf1 := { wf with status := WorkflowStatus.running }
  let res := stepLoop h t fuel [] [] wf1
  let wf3 := { res.1 with end_time := some t,
                          total_duration := t - res.1.start_time }
  if wf3.status = WorkflowStatus.running then
    ({ wf3 with status := WorkflowStatus.completed }, res.2)
  else
    (wf3, res.2)

/-- The engine's registry `self.active_workflows`. -/
def Registry : Type := List (String × Workflow)

def lookupWf (reg : Registry) (id : String) : Option Workflow :=
  (List.find? (fun p => p.1 == id) reg).map (·.2)

/-- `WorkflowEngine.cancel_workflow`: unknown id returns `False`; otherwise
ask the render manager to cancel `context['render_job_id']` if set (the
returned `Option String` records that request), overwrite the status with
`CANCELLED` whatever it was, and recompute end time and total duration. -/
def cancelWorkflow (reg : Registry) (id : String) (now : Int) :
    Bool × Registry × Option String :=
  match lookupWf reg id with
  | none => (false, reg, none)
  | some wf =>
      let wf' := { wf with status := WorkflowStatus.cancelled,
                           end_time := some now,
                           total_duration := now - wf.start_time }
      (true,
       reg.map (fun p => if p.1 == id then (p.1, wf') else p),
       wf.context_render_job_id)

/-! ## Render supervisor data model (`render_manager.py`) -/

inductive RenderQuality where
  | low
  | medium
  | high
  | production
deriving DecidableEq

/-- The `.value` string of each `RenderQuality` enum member. -/
def RenderQuality.val : RenderQuality → String
  | RenderQuality.low => "low_quality"
  | RenderQuality.medium => "medium_quality"
  | RenderQuality.high => "high_quality"
  | RenderQuality.production => "production_quality"

inductive RenderStatus where
  | pending
  | running
  | completed
  | failed
  | cancelled
deriving DecidableEq

/-- The `.value` string of each `RenderStatus` enum member. -/
def RenderStatus.val : RenderStatus → String
  | RenderStatus.pending => "pending"
  | RenderStatus.running => "running"
  | RenderStatus.completed => "completed"
  | RenderStatus.failed => "failed"
  | RenderStatus.cancelled => "cancelled"

structure RenderConfig where
  quality : RenderQuality := RenderQuality.medium
  resolution : Int × Int := (1920, 1080)
  frame_rate : Int := 30
  aspect_ratio : String := "16:9"
  background_color : String := "BLACK"
  output_format : String := "mp4"
  audio_enabled : Bool := true
  preview_mode : Bool := false
  custom_flags : List String := []
deriving DecidableEq

/-- `RenderJob` dataclass.  `scene_class` (a Python type object) is opaque to
every property proved here and is omitted; `process` is a `subprocess.Popen`
handle, modelled as an abstract token. -/
structure RenderJob where
  id : String
  scene_file : String
  config : RenderConfig := {}
  output_path : String
  status : RenderStatus := RenderStatus.pending
  progress : Nat := 0
  start_time : Option Int := none
  end_time : Option Int := none
  error_message : Option String := none
  process : Option Nat := none
deriving DecidableEq

structure RenderResult where
  job_id : String
  success : Bool
  output_file : String
  duration : Int
  file_size : Nat
  resolution : Int × Int
  frame_count : Nat
  error_message : Option String := none
deriving DecidableEq

/-- A Python dict key as it occurs around `quality_presets`: the dict is
built with `RenderQuality` enum members as keys, while
`_build_manim_command` indexes it with the string `config.quality.value`.
An enum member never compares equal to a string, which this sum type makes
explicit. -/
inductive PresetKey where
  | enumKey : RenderQuality → PresetKey
  | strKey : String → PresetKey
deriving BEq, DecidableEq

structure QualityPreset where
  pixel_height : Nat
  pixel_width : Nat
  frame_rate : Nat
  quality : String
deriving DecidableEq

/-- `self.quality_presets` as built in `RenderManager.__init__`. -/
def quality_presets : List (PresetKey × QualityPreset) :=
  [ (PresetKey.enumKey RenderQuality.low,
      { pixel_height := 480, pixel_width := 854, frame_rate := 15,
        quality := "low_quality" }),
    (PresetKey.enumKey RenderQuality.medium,
      { pixel_height := 720, pixel_width := 1280, frame_rate := 24,
        quality := "medium_quality" }),
    (PresetKey.enumKey RenderQuality.high,
      { pixel_height := 1080, pixel_width := 1920, frame_rate := 30,
        quality := "high_quality" }),
    (PresetKey.enumKey RenderQuality.production,
      { pixel_height := 1080, pixel_width := 1920, frame_rate := 60,
        quality := "production_quality" }) ]

/-- Dict subscription `self.quality_presets[k]`: `some` the stored value, or
`none` for the `KeyError` case. -/
def presetLookup (k : PresetKey) : Option QualityPreset :=
  (quality_presets.find? (fun p => p.1 == k)).map (·.2)

/-- `RenderManager._build_manim_command`.  `Except.error k` models the
uncaught `KeyError(k)` raised by the dict subscription. -/
def buildManimCommand (job : RenderJob) : Except String (List String) :=
  match presetLookup (PresetKey.strKey job.config.quality.val) with
  | none => Except.error job.config.quality.val
  | some preset =>
      let cmd : List String :=
        [ "manim", job.scene_file, "RenderScene",
          "--quality=" ++ preset.quality,
          "--resolution=" ++ toString job.config.resolution.1 ++ ","
            ++ toString job.config.resolution.2,
          "--frame_rate=" ++ toString job.config.frame_rate,
          "--output_file=" ++ job.output_path ]
      let cmd := if job.config.preview_mode then cmd ++ ["--preview"] else cmd
      let cmd := if job.config.background_color != "" then
                   cmd ++ ["--background_color=" ++ job.config.background_color]
                 else cmd
      Except.ok (cmd ++ job.config.custom_flags)

/-- The mutable state of a `RenderManager`.  `temp_files` models the contents
of `self.temp_dir` as pairs (owning job id, file path): the generated scene
file and any scratch file matching the glob `*{job.id}*` carry the job's id.
-/
structure RenderManagerState where
  render_queue : List RenderJob
  active_jobs : List (String × RenderJob)
  completed_jobs : List (String × RenderResult)
  current_renders : Int
  max_concurrent_renders : Int
  temp_files : List (String × String)
deriving DecidableEq

/-- In Python the job object stored in `active_jobs` is mutated in place;
here each mutation re-stores the updated job under its id. -/
def storeJobUpdate (st : RenderManagerState) (j : RenderJob) : RenderManagerState :=
  { st with active_jobs :=
      st.active_jobs.map (fun p => if p.1 == j.id then (p.1, j) else p) }

/-- `RenderManager._create_render_result`, success branch (the caller has
checked `output_file.exists()`).  Python guards the subtraction with
`if job.start_time`; timestamps here are abstract so `start_time = 0` falsy
corner is not distinguished. -/
def createRenderResult (job : RenderJob) (file_size : Nat) : RenderResult :=
  { job_id := job.id, success := true, output_file := job.output_path,
    duration := match job.start_time with
                | some s => (job.end_time.getD 0) - s
                | none => 0,
    file_size := file_size, resolution := job.config.resolution,
    frame_count := 0 }

/-- `RenderManager._cleanup_job_files`: remove the generated scene file and
every temp file matching `*{job.id}*`. -/
def cleanupJobFiles (st : RenderManagerState) (job : RenderJob) : RenderManagerState :=
  { st with temp_files := st.temp_files.filter (fun f => !(f.1 == job.id)) }

/-- The tail of `_handle_job_completion` after both exit-code branches:
`del self.active_jobs[job.id]` (guarded by membership), decrement
`current_renders`, delete the job's temp files. -/
def finalizeJob (st : RenderManagerState) (job : RenderJob) : RenderManagerState :=
  let st1 :=
    if st.active_jobs.any (fun p => p.1 == job.id) then
      { st with active_jobs := st.active_jobs.filter (fun p => !(p.1 == job.id)) }
    else st
  let st2 := { st1 with current_renders := st1.current_renders - 1 }
  cleanupJobFiles st2 job

/-- `RenderManager._handle_job_completion`.  `procExit` is
`(returncode, stderr text)` of the finished process, `none` when
`job.process` is `None` (launch failure path).  When the exit code is zero
but the output file is absent, `_create_render_result` raises; the `except`
only logs, so every mutation after the success-status assignment — storing
the result, removing the job from `active_jobs`, decrementing
`current_renders`, deleting temp files — is skipped. -/
def handleJobCompletion (st0 : RenderManagerState) (job0 : RenderJob)
    (procExit : Option (Int × String)) (outputExists : Bool) (file_size : Nat)
    (now : Int) : RenderManagerState :=
  let job1 := { job0 with end_time := some now }
  let st1 := storeJobUpdate st0 job1
  match procExit with
  | none => finalizeJob st1 job1
  | some p =>
    if p.1 = 0 then
      let job2 := { job1 with status := RenderStatus.completed, progress := 100 }
      let st2 := storeJobUpdate st1 job2
      if outputExists then
        let result := createRenderResult job2 file_size
        let st3 := { st2 with completed_jobs := st2.completed_jobs ++ [(job2.id, result)] }
        finalizeJob st3 job2
      else
        st2
    else
      let job2 := { job1 with
        status := RenderStatus.failed
        error_message := some (if p.2 == "" then "渲染进程异常退出" else p.2) }
      let st2 := storeJobUpdate st1 job2
      let result : RenderResult :=
        { job_id := job2.id, success := false, output_file := "", duration := 0,
          file_size := 0, resolution := (0, 0), frame_count := 0,
          error_message := job2.error_message }
      let st3 := { st2 with completed_jobs := st2.completed_jobs ++ [(job2.id, result)] }
      finalizeJob st3 job2

/-- `RenderManager._start_render_job`: mark running, store in `active_jobs`,
increment `current_renders`, build the command and spawn; on an exception
(including the `KeyError` from `_build_manim_command`) mark failed and run
`_handle_job_completion`.  Alongside the new state it returns the successive
values of `current_renders` observed during the call. -/
def startRenderJob (st : RenderManagerState) (job : RenderJob) (now : Int) :
    RenderManagerState × List Int :=
  let job1 := { job with status := RenderStatus.running, start_time := some now }
  let st1 := { st with active_jobs := st.active_jobs ++ [(job1.id, job1)],
                       current_renders := st.current_renders + 1 }
  match buildManimCommand job1 with
  | Except.ok _ =>
      let job2 := { job1 with process := some 1 }
      (storeJobUpdate st1 job2, [st1.current_renders])
  | Except.error e =>
      let job2 := { job1 with status := RenderStatus.failed, error_message := some e }
      let st2 := storeJobUpdate st1 job2
      let st3 := handleJobCompletion st2 job2 none false 0 now
      (st3, [st1.current_renders, st3.current_renders])

/-- The dict subscription `self.quality_presets[config.quality.value]` always
raises `KeyError`: the dict is keyed by the enum members themselves, never by
their `.value` strings. -/
theorem presetLookup_strKey (s : String) :
    presetLookup (PresetKey.strKey s) = none := rfl

theorem buildManimCommand_err (job : RenderJob) :
    buildManimCommand job = Except.error job.config.quality.val := by
  unfold buildManimCommand
  rw [presetLookup_strKey]

theorem startRenderJob_queue_eq (st : RenderManagerState) (job : RenderJob)
    (now : Int) : (startRenderJob st job now).1.render_queue = st.render_queue := by
  simp only [startRenderJob, buildManimCommand_err, handleJobCompletion,
    finalizeJob, cleanupJobFiles, storeJobUpdate]
  split <;> rfl

/-- The dispatch clause of `RenderManager._monitor_renders`,
`RenderManager._start_pending_jobs`: while `current_renders` is below
`max_concurrent_renders` and the queue is non-empty, pop the head job and
launch it.  Returns the state, the launched job ids in launch order, and the
concatenated `current_renders` observations of the launches. -/
def startPendingJobs (st : RenderManagerState) (now : Int) :
    RenderManagerState × List String × List Int :=
  match hq : st.render_queue with
  | [] => (st, [], [])
  | job :: rest =>
    if st.current_renders < st.max_concurrent_renders then
      let r1 := startRenderJob { st with render_queue := rest } job now
      let r2 := startPendingJobs r1.1 now
      (r2.1, job.id :: r2.2.1, r1.2 ++ r2.2.2)
    else (st, [], [])
termination_by st.render_queue.length
decreasing_by simp [startRenderJob_queue_eq, hq]

def lookupActive (st : RenderManagerState) (job_id : String) : Option RenderJob :=
  (st.active_jobs.find? (fun p => p.1 == job_id)).map (·.2)

/-- The queue scan of `RenderManager.cancel_job`: pop the first queued job
with the given id (its in-place `CANCELLED` mark dies with the popped
object); `none` when no queued job matches. -/
def removeQueued (job_id : String) : List RenderJob → Option (List RenderJob)
  | [] => none
  | j :: rest =>
      if j.id == job_id then some rest
      else (removeQueued job_id rest).map (j :: ·)

/-- `RenderManager.cancel_job`.  For an active job with a live process the
`terminate()` call is modelled as succeeding (the `except` path returns
`False`); an active entry without a process falls through to the queue
scan, exactly as in the source. -/
def cancelJob (st : RenderManagerState) (job_id : String) :
    Bool × RenderManagerState :=
  let viaQueue : Bool × RenderManagerState :=
    match removeQueued job_id st.render_queue with
    | some q => (true, { st with render_queue := q })
    | none => (false, st)
  match lookupActive st job_id with
  | some job =>
      match job.process with
      | some _ => (true, storeJobUpdate st { job with status := RenderStatus.cancelled })
      | none => viaQueue
  | none => viaQueue

/-- The dict returned by `RenderManager.get_job_status`; absent keys are
`none`. -/
structure JobStatusInfo where
  id : String
  status : String
  progress : Nat
  start_time : Option Int := none
  output_file : Option String := none
  duration : Option Int := none
  file_size : Option Nat := none
  error_message : Option String := none
deriving DecidableEq

/-- `RenderManager.get_job_status`: check `active_jobs`, then
`completed_jobs`, then the queue; otherwise `None`. -/
def getJobStatus (st : RenderManagerState) (job_id : String) :
    Option JobStatusInfo :=
  match lookupActive st job_id with
  | some job =>
      some { id := job.id, status := job.status.val, progress := job.progress,
             start_time := job.start_time, error_message := job.error_message }
  | none =>
  match (st.completed_jobs.find? (fun p => p.1 == job_id)).map (·.2) with
  | some r =>
      some { id := r.job_id,
             status := if r.success then "completed" else "failed",
             progress := if r.success then 100 else 0,
             output_file := some r.output_file, duration := some r.duration,
             file_size := some r.file_size, error_message := r.error_message }
  | none =>
  match st.render_queue.find? (fun j => j.id == job_id) with
  | some job =>
      some { id := job.id, status := job.status.val, progress := 0 }
  | none => none

/-! ## Concrete instances used by counterexamples and witnesses -/

/-- Handler oracle that raises on step `A` and succeeds elsewhere. -/
def failA : Handlers :=
  fun id => if id == "A" then Except.error "boom" else Except.ok "done"

/-- Handler oracle that always succeeds. -/
def okH : Handlers := fun _ => Except.ok "done"

def stepA : WorkflowStep := { id := "A", name := "A" }

def stepB : WorkflowStep := { id := "B", name := "B", dependencies := ["A"] }

/-- Two-step workflow `A → B` with `A`'s handler raising. -/
def wfAB : Workflow :=
  { workflow_id := "w1", status := WorkflowStatus.created,
    steps := [stepA, stepB], start_time := 0 }

def stepBc : WorkflowStep := { id := "B", name := "B", dependencies := ["C"] }

def stepCc : WorkflowStep := { id := "C", name := "C", dependencies := ["B"] }

/-- Workflow with the dependency cycle `B ↔ C` plus an independent failing
root step `A`. -/
def wfCyc : Workflow :=
  { workflow_id := "w2", status := WorkflowStatus.created,
    steps := [stepA, stepBc, stepCc], start_time := 0 }

/-- A running one-step workflow about to be cancelled. -/
def wfRun : Workflow :=
  { workflow_id := "w3", status := WorkflowStatus.running,
    steps := [stepA], start_time := 0 }

/-- An already completed workflow registered under `"w9"`. -/
def wfDone : Workflow :=
  { workflow_id := "w9", status := WorkflowStatus.completed, steps := [],
    start_time := 2, end_time := some 3, total_duration := 1 }

/-- A queued render job. -/
def qJob : RenderJob :=
  { id := "q1", scene_file := "scene_q1.py", output_path := "output/q1.mp4" }

/-- Supervisor state with `qJob` queued and nothing active or completed. -/
def st5 : RenderManagerState :=
  { render_queue := [qJob], active_jobs := [], completed_jobs := [],
    current_renders := 0, max_concurrent_renders := 2,
    temp_files := [("q1", "scene_q1.py")] }

/-- A running render job whose process is live. -/
def j1run : RenderJob :=
  { id := "j1", scene_file := "scene_j1.py", output_path := "output/j1.mp4",
    status := RenderStatus.running, start_time := some 1, process := some 1 }

/-- Supervisor state with `j1run` active and its scene file on disk. -/
def st9 : RenderManagerState :=
  { render_queue := [], active_jobs := [("j1", j1run)], completed_jobs := [],
    current_renders := 1, max_concurrent_renders := 2,
    temp_files := [("j1", "scene_j1.py")] }

/-- Supervisor state with two queued jobs and concurrency limit 1. -/
def st4 : RenderManagerState :=
  { render_queue := [qJob, { id := "q2", scene_file := "scene_q2.py",
                             output_path := "output/q2.mp4" }],
    active_jobs := [], completed_jobs := [], current_renders := 0,
    max_concurrent_renders := 1, temp_files := [] }

/-! ## Shared lemmas about the scheduler -/

theorem executeStep_id (h : Handlers) (t : Int) (s : WorkflowStep) :
    (executeStep h t s).id = s.id := by
  unfold executeStep
  cases h s.id <;> rfl

theorem executeStep_deps (h : Handlers) (t : Int) (s : WorkflowStep) :
    (executeStep h t s).dependencies = s.dependencies := by
  unfold executeStep
  cases h s.id <;> rfl

theorem executeStep_terminal (h : Handlers) (t : Int) (s : WorkflowStep) :
    isTerminal (executeStep h t s).status = true := by
  unfold executeStep
  cases h s.id <;> rfl

/-- Updating a workflow's status field does not change which steps the
scheduling loop launches: the loop never reads `workflow.status`. -/
theorem stepLoop_snd_congr (h : Handlers) (t : Int) :
    ∀ (fuel : Nat) (ex l : List String) (wf wf' : Workflow),
    wf.steps = wf'.steps →
    (stepLoop h t fuel ex l wf).2 = (stepLoop h t fuel ex l wf').2 := by
  intro fuel
  induction fuel with
  | zero => intro ex l wf wf' _; rfl
  | succ n ih =>
      intro ex l wf wf' hsteps
      simp only [stepLoop, hsteps]
      split
      · split
        · split <;> rfl
        · exact ih _ _ _ _ rfl
      · rfl

theorem lookupWf_map_update (reg : Registry) (id : String) (wf wf' : Workflow)
    (hlk : lookupWf reg id = some wf) :
    lookupWf (reg.map (fun p => if p.1 == id then (p.1, wf') else p)) id
      = some wf' := by
  induction reg with
  | nil => simp [lookupWf, List.find?] at hlk
  | cons a rest ih =>
      by_cases hc : a.1 == id
      · simp [lookupWf, List.find?, hc]
      · have h1 : lookupWf rest id = some wf := by
          simpa [lookupWf, List.find?, hc] using hlk
        simpa [lookupWf, List.find?, hc] using ih h1

/-! ## Claim C8 -/

/-- C8: a step handler's exception is caught inside `_execute_step` (the
model `executeStep` is total, so nothing propagates to the caller that
created the workflow); the step is marked `failed` with the exception text
and an end time recorded.  All other step fields are untouched. -/
theorem c8_step_failure_captured (h : Handlers) (t : Int) (s : WorkflowStep)
    (e : String) (he : h s.id = Except.error e) :
    executeStep h t s =
      { s with status := StepStatus.failed, start_time := some t,
               end_time := some t, error := some e } := by
  simp [executeStep, he]

theorem c8_witness :
    executeStep failA 0 stepA =
      { stepA with status := StepStatus.failed, start_time := some 0,
                   end_time := some 0, error := some "boom" } :=
  c8_step_failure_captured failA 0 stepA "boom" rfl

/-! ## Claim C10 -/

/-- C10: `cancel_workflow` succeeds for any registered workflow id whatever
the workflow's current state: the stored workflow (here an arbitrary `wf`,
including one already `completed` or `failed`) gets its status overwritten
with `cancelled` and its end time and total duration recomputed. -/
theorem c10_cancel_ignores_terminal_state (reg : Registry) (id : String)
    (now : Int) (wf : Workflow) (hlk : lookupWf reg id = some wf) :
    (cancelWorkflow reg id now).1 = true ∧
    lookupWf (cancelWorkflow reg id now).2.1 id =
      some { wf with status := WorkflowStatus.cancelled, end_time := some now,
                     total_duration := now - wf.start_time } := by
  unfold cancelWorkflow
  rw [hlk]
  exact ⟨rfl, lookupWf_map_update reg id wf _ hlk⟩

theorem c10_witness :
    (cancelWorkflow [("w9", wfDone)] "w9" 99).1 = true ∧
    lookupWf (cancelWorkflow [("w9", wfDone)] "w9" 99).2.1 "w9" =
      some { wfDone with status := WorkflowStatus.cancelled, end_time := some 99,
                         total_duration := 99 - wfDone.start_time } :=
  c10_cancel_ignores_terminal_state [("w9", wfDone)] "w9" 99 wfDone rfl

/-! ## Claim C6 -/

/-- C6 (amended): `cancel_workflow` marks the workflow `cancelled` and leaves
its steps untouched (running step tasks are not interrupted), but it does not
halt downstream scheduling: the execution loop never consults the status
flag, so it launches exactly the same steps on the cancelled workflow as it
would have on the uncancelled one. -/
theorem c6_cancel_does_not_halt_scheduling (reg : Registry) (id : String)
    (now : Int) (wf : Workflow) (h : Handlers) (t : Int) (fuel : Nat)
    (ex l : List String) (hlk : lookupWf reg id = some wf) :
    (cancelWorkflow reg id now).1 = true ∧
    lookupWf (cancelWorkflow reg id now).2.1 id =
      some { wf with status := WorkflowStatus.cancelled, end_time := some now,
                     total_duration := now - wf.start_time } ∧
    (stepLoop h t fuel ex l
       { wf with status := WorkflowStatus.cancelled, end_time := some now,
                 total_duration := now - wf.start_time }).2 =
      (stepLoop h t fuel ex l wf).2 := by
  refine ⟨?_, ?_, stepLoop_snd_congr h t fuel ex l _ wf rfl⟩
  · unfold cancelWorkflow; rw [hlk]
  · unfold cancelWorkflow; rw [hlk]
    exact lookupWf_map_update reg id wf _ hlk

theorem c6_witness :
    (cancelWorkflow [("w3", wfRun)] "w3" 5).1 = true ∧
    lookupWf (cancelWorkflow [("w3", wfRun)] "w3" 5).2.1 "w3" =
      some { wfRun with status := WorkflowStatus.cancelled, end_time := some 5,
                        total_duration := 5 - wfRun.start_time } ∧
    (stepLoop okH 0 2 [] []
       { wfRun with status := WorkflowStatus.cancelled, end_time := some 5,
                    total_duration := 5 - wfRun.start_time }).2 =
      (stepLoop okH 0 2 [] [] wfRun).2 :=
  c6_cancel_does_not_halt_scheduling [("w3", wfRun)] "w3" 5 wfRun okH 0 2 [] [] rfl

/-- C6 counterexample: after `cancel_workflow` has marked the one-step
workflow cancelled, the scheduling loop still launches step `A`, which was
`pending` at cancellation time, and runs it to completion. -/
theorem c6_counterexample :
    (cancelWorkflow [("w3", wfRun)] "w3" 5).1 = true ∧
    lookupWf (cancelWorkflow [("w3", wfRun)] "w3" 5).2.1 "w3" =
      some { wfRun with status := WorkflowStatus.cancelled, end_time := some 5,
                        total_duration := 5 } ∧
    (stepLoop okH 0 2 [] []
       { wfRun with status := WorkflowStatus.cancelled, end_time := some 5,
                    total_duration := 5 }).2 = ["A"] ∧
    ((stepLoop okH 0 2 [] []
       { wfRun with status := WorkflowStatus.cancelled, end_time := some 5,
                    total_duration := 5 }).1.steps.map (·.status)) =
      [StepStatus.completed] :=
  ⟨rfl, rfl, rfl, rfl⟩

/-! ## Counterexamples for C1, C2, C5, C7, C9 -/

/-- C1 counterexample: in the two-step workflow `A → B` where `A`'s handler
raises, step `A` ends `failed`, yet the workflow's final status is
`completed` — `executed_steps` includes failed steps, so the loop finishes
all steps and the epilogue promotes the still-running status to completed. -/
theorem c1_counterexample :
    (executeWorkflow failA 0 3 wfAB).1.status = WorkflowStatus.completed ∧
    ((executeWorkflow failA 0 3 wfAB).1.steps.map fun s => (s.id, s.status)) =
      [("A", StepStatus.failed), ("B", StepStatus.completed)] :=
  ⟨rfl, rfl⟩

/-- C2 counterexample: step `B` declares a dependency on `A`; `A` fails, yet
`B` is still launched (appears in the launch list, i.e. enters `running`)
and even completes: dependencies only need to be executed, not completed. -/
theorem c2_counterexample :
    ((executeWorkflow failA 0 3 wfAB).1.steps.map fun s => (s.id, s.status)) =
      [("A", StepStatus.failed), ("B", StepStatus.completed)] ∧
    (executeWorkflow failA 0 3 wfAB).2 = ["A", "B"] :=
  ⟨rfl, rfl⟩

/-- C5 counterexample: cancelling the queued job `q1` returns `True` and
removes it from the queue, but a subsequent `get_job_status` returns `None`
(not found) — not a `cancelled` report. -/
theorem c5_counterexample :
    (cancelJob st5 "q1").1 = true ∧
    getJobStatus (cancelJob st5 "q1").2 "q1" = none :=
  ⟨rfl, rfl⟩

/-- C7 counterexample: `wfCyc` contains the dependency cycle `B ↔ C`, and
its root step `A` fails; the loop terminates and fails the workflow, but the
error message is the failed-steps message naming `A`, not the deadlock
message. -/
theorem c7_counterexample :
    (executeWorkflow failA 0 4 wfCyc).1.status = WorkflowStatus.failed ∧
    (executeWorkflow failA 0 4 wfCyc).1.error_message = some "步骤失败: A" ∧
    "步骤失败: A" ≠ deadlockMessage :=
  ⟨rfl, rfl, by decide⟩

/-- C9 counterexample: process exit code 0 with the expected output file
absent: `_create_render_result` raises, the `except` only logs, and the
cleanup tail is skipped — `current_renders` is not decremented, the job
stays in `active_jobs`, the temp files survive, and no result is recorded. -/
theorem c9_counterexample :
    (handleJobCompletion st9 j1run (some (0, "")) false 0 10).current_renders
        = st9.current_renders ∧
    ((handleJobCompletion st9 j1run (some (0, "")) false 0 10).active_jobs.map (·.1))
        = ["j1"] ∧
    (handleJobCompletion st9 j1run (some (0, "")) false 0 10).temp_files
        = st9.temp_files ∧
    (handleJobCompletion st9 j1run (some (0, "")) false 0 10).completed_jobs = [] :=
  ⟨rfl, rfl, rfl, rfl⟩

/-! ## Claim C3 -/

/-- C3 (code bug): `_build_manim_command` never succeeds.  It indexes
`quality_presets` with the string `config.quality.value`, but the table is
keyed by the `RenderQuality` enum members themselves, so the subscription
raises `KeyError` for every quality — while the intended enum-member key is
present in the table. -/
theorem c3_build_command_always_raises (job : RenderJob) :
    buildManimCommand job = Except.error job.config.quality.val ∧
    (presetLookup (PresetKey.enumKey job.config.quality)).isSome = true := by
  refine ⟨buildManimCommand_err job, ?_⟩
  cases job.config.quality <;> rfl

/-! ## Claim C9 -/

theorem finalizeJob_spec (st : RenderManagerState) (j : RenderJob) :
    (finalizeJob st j).current_renders = st.current_renders - 1 ∧
    (finalizeJob st j).active_jobs.filter (fun p => p.1 == j.id) = [] ∧
    (finalizeJob st j).temp_files.filter (fun f => f.1 == j.id) = [] := by
  unfold finalizeJob cleanupJobFiles
  by_cases hin : st.active_jobs.any (fun p => p.1 == j.id)
  · rw [if_pos hin]
    refine ⟨rfl, ?_, ?_⟩
    · refine List.filter_eq_nil.mpr ?_
      intro p hp
      have := (List.mem_filter.mp hp).2
      simp at this ⊢
      exact this
    · refine List.filter_eq_nil.mpr ?_
      intro f hf
      have := (List.mem_filter.mp hf).2
      simp at this ⊢
      exact this
  · rw [if_neg hin]
    have hall : ∀ p ∈ st.active_jobs, ¬ (p.1 == j.id) = true := by
      intro p hp
      intro hbeq
      exact hin (List.any_eq_true.mpr ⟨p, hp, hbeq⟩)
    refine ⟨rfl, ?_, ?_⟩
    · exact List.filter_eq_nil.mpr hall
    · refine List.filter_eq_nil.mpr ?_
      intro f hf
      have := (List.mem_filter.mp hf).2
      simp at this ⊢
      exact this

/-- Reduction of `_handle_job_completion` in the zero-exit case with the
output file present. -/
theorem handleJobCompletion_eq_ok (st : RenderManagerState) (job : RenderJob)
    (errText : String) (fs : Nat) (now : Int) :
    handleJobCompletion st job (some (0, errText)) true fs now =
      (let job1 := { job with end_time := some now }
       let st1 := storeJobUpdate st job1
       let job2 := { job1 with status := RenderStatus.completed, progress := 100 }
       let st2 := storeJobUpdate st1 job2
       let result := createRenderResult job2 fs
       let st3 := { st2 with completed_jobs := st2.completed_jobs ++ [(job2.id, result)] }
       finalizeJob st3 job2) := rfl

/-- C9 (amended): for a finished process, finalization decrements the
running counter, removes the job from the active table and deletes its temp
files in the nonzero-exit case and in the zero-exit case with the output
file present; the zero-exit case with the output file absent is excluded
(there `_create_render_result` raises and the cleanup tail is skipped, see
the counterexample). -/
theorem c9_cleanup_on_normal_exit (st : RenderManagerState) (job : RenderJob)
    (rc : Int) (errText : String) (outputExists : Bool) (fs : Nat) (now : Int)
    (hcase : rc ≠ 0 ∨ outputExists = true) :
    (handleJobCompletion st job (some (rc, errText)) outputExists fs now).current_renders
        = st.current_renders - 1 ∧
    ((handleJobCompletion st job (some (rc, errText)) outputExists fs now).active_jobs.filter
        (fun p => p.1 == job.id)) = [] ∧
    ((handleJobCompletion st job (some (rc, errText)) outputExists fs now).temp_files.filter
        (fun f => f.1 == job.id)) = [] := by
  by_cases h0 : rc = 0
  · have hout : outputExists = true := by
      rcases hcase with hne | hout
      · exact absurd h0 hne
      · exact hout
    subst hout
    subst h0
    rw [handleJobCompletion_eq_ok]
    exact ⟨(finalizeJob_spec _ _).1, (finalizeJob_spec _ _).2.1, (finalizeJob_spec _ _).2.2⟩
  · simp only [handleJobCompletion]
    rw [if_neg h0]
    exact ⟨(finalizeJob_spec _ _).1, (finalizeJob_spec _ _).2.1, (finalizeJob_spec _ _).2.2⟩

theorem c9_witness :
    (handleJobCompletion st9 j1run (some (1, "err")) false 0 10).current_renders
        = st9.current_renders - 1 ∧
    ((handleJobCompletion st9 j1run (some (1, "err")) false 0 10).active_jobs.filter
        (fun p => p.1 == j1run.id)) = [] ∧
    ((handleJobCompletion st9 j1run (some (1, "err")) false 0 10).temp_files.filter
        (fun f => f.1 == j1run.id)) = [] :=
  c9_cleanup_on_normal_exit st9 j1run 1 "err" false 0 10 (Or.inl (by decide))

/-! ## Claim C5 -/

theorem removeQueued_spec (job_id : String) :
    ∀ (l : List RenderJob), ((l.map (·.id)).Nodup) →
    (∃ j ∈ l, j.id = job_id) →
    ∃ q, removeQueued job_id l = some q ∧
         q.filter (fun j => j.id == job_id) = [] := by
  intro l
  induction l with
  | nil => intro _ hmem; simp at hmem
  | cons j rest ih =>
      intro hnd hmem
      have hparts : (∀ x ∈ rest, ¬ x.id = j.id) ∧ ((rest.map (·.id)).Nodup) := by
        simpa using hnd
      by_cases hj : j.id = job_id
      · refine ⟨rest, by simp [removeQueued, hj], ?_⟩
        refine List.filter_eq_nil_iff.mpr ?_
        intro x hx hbeq
        have hxid : x.id = job_id := by simpa using hbeq
        exact hparts.1 x hx (by rw [hxid, hj])
      · have hmem' : ∃ x ∈ rest, x.id = job_id := by
          rcases hmem with ⟨x, hx, hxid⟩
          rcases List.mem_cons.mp hx with hx1 | hx2
          · exact absurd (hx1 ▸ hxid) hj
          · exact ⟨x, hx2, hxid⟩
        rcases ih hparts.2 hmem' with ⟨q, hq, hfil⟩
        refine ⟨j :: q, by simp [removeQueued, hj, hq], ?_⟩
        have hb : (j.id == job_id) = false := by simpa using hj
        simp [List.filter_cons, hb, hfil]

/-- C5 (amended): cancelling a job that is only in the queue removes it from
the queue and returns `True`, and a subsequent `get_job_status` reports the
job as not found (`None`) — never running, but also never cancelled. -/
theorem c5_cancel_queued_then_not_found (st : RenderManagerState)
    (job_id : String)
    (hact : lookupActive st job_id = none)
    (hcomp : st.completed_jobs.find? (fun p => p.1 == job_id) = none)
    (hnd : (st.render_queue.map (·.id)).Nodup)
    (hq : ∃ j ∈ st.render_queue, j.id = job_id) :
    (cancelJob st job_id).1 = true ∧
    ((cancelJob st job_id).2.render_queue.filter (fun j => j.id == job_id)) = [] ∧
    getJobStatus (cancelJob st job_id).2 job_id = none := by
  rcases removeQueued_spec job_id st.render_queue hnd hq with ⟨q, hrq, hfil⟩
  have hcj : cancelJob st job_id = (true, { st with render_queue := q }) := by
    unfold cancelJob
    rw [hact, hrq]
  rw [hcj]
  refine ⟨rfl, hfil, ?_⟩
  have hact' : lookupActive { st with render_queue := q } job_id = none := hact
  unfold getJobStatus
  rw [hact', hcomp]
  have hfind : q.find? (fun j => j.id == job_id) = none := by
    refine List.find?_eq_none.mpr ?_
    intro x hx hbeq
    have : x ∈ q.filter (fun j => j.id == job_id) := List.mem_filter.mpr ⟨hx, hbeq⟩
    rw [hfil] at this
    exact absurd this (List.not_mem_nil x)
  rw [hfind]
  rfl

theorem c5_witness :
    (cancelJob st5 "q1").1 = true ∧
    ((cancelJob st5 "q1").2.render_queue.filter (fun j => j.id == "q1")) = [] ∧
    getJobStatus (cancelJob st5 "q1").2 "q1" = none :=
  c5_cancel_queued_then_not_found st5 "q1" rfl rfl (by decide)
    ⟨qJob, by decide, rfl⟩

/-! ## Claim C4 -/

theorem finalizeJob_max (st : RenderManagerState) (j : RenderJob) :
    (finalizeJob st j).max_concurrent_renders = st.max_concurrent_renders := by
  unfold finalizeJob cleanupJobFiles
  split <;> rfl

theorem handleJobCompletion_none_current (st : RenderManagerState)
    (job : RenderJob) (oe : Bool) (fs : Nat) (now : Int) :
    (handleJobCompletion st job none oe fs now).current_renders
      = st.current_renders - 1 := by
  simp only [handleJobCompletion]
  exact (finalizeJob_spec _ _).1

theorem handleJobCompletion_none_max (st : RenderManagerState)
    (job : RenderJob) (oe : Bool) (fs : Nat) (now : Int) :
    (handleJobCompletion st job none oe fs now).max_concurrent_renders
      = st.max_concurrent_renders := by
  simp only [handleJobCompletion]
  exact finalizeJob_max _ _

/-- Observed counter values during one launch: up to `current + 1` while the
(state-of-the-art failing) spawn is attempted, back to `current` once the
launch failure is finalized. -/
theorem startRenderJob_trace (st : RenderManagerState) (job : RenderJob)
    (now : Int) :
    (startRenderJob st job now).2
      = [st.current_renders + 1, st.current_renders] := by
  simp only [startRenderJob, buildManimCommand_err]
  rw [handleJobCompletion_none_current]
  simp [storeJobUpdate]

theorem startRenderJob_current (st : RenderManagerState) (job : RenderJob)
    (now : Int) :
    (startRenderJob st job now).1.current_renders = st.current_renders := by
  simp only [startRenderJob, buildManimCommand_err]
  rw [handleJobCompletion_none_current]
  simp [storeJobUpdate]

theorem startRenderJob_max (st : RenderManagerState) (job : RenderJob)
    (now : Int) :
    (startRenderJob st job now).1.max_concurrent_renders
      = st.max_concurrent_renders := by
  simp only [startRenderJob, buildManimCommand_err]
  rw [handleJobCompletion_none_max]
  rfl

theorem startPendingJobs_nil (st : RenderManagerState) (now : Int)
    (hq : st.render_queue = []) : startPendingJobs st now = (st, [], []) := by
  rw [startPendingJobs.eq_def]
  split
  · rfl
  · rename_i job rest heq
    rw [hq] at heq
    simp at heq

theorem startPendingJobs_cons_pos (st : RenderManagerState) (now : Int)
    (job : RenderJob) (rest : List RenderJob)
    (hq : st.render_queue = job :: rest)
    (hcond : st.current_renders < st.max_concurrent_renders) :
    startPendingJobs st now =
      ((startPendingJobs (startRenderJob { st with render_queue := rest } job now).1 now).1,
       job.id ::
         (startPendingJobs (startRenderJob { st with render_queue := rest } job now).1 now).2.1,
       (startRenderJob { st with render_queue := rest } job now).2 ++
         (startPendingJobs (startRenderJob { st with render_queue := rest } job now).1 now).2.2) := by
  rw [startPendingJobs.eq_def]
  split
  · rename_i heq
    rw [hq] at heq
    simp at heq
  · rename_i job' rest' heq
    rw [hq] at heq
    injection heq with h1 h2
    subst h1
    subst h2
    rw [if_pos hcond]

theorem startPendingJobs_cons_neg (st : RenderManagerState) (now : Int)
    (job : RenderJob) (rest : List RenderJob)
    (hq : st.render_queue = job :: rest)
    (hcond : ¬ st.current_renders < st.max_concurrent_renders) :
    startPendingJobs st now = (st, [], []) := by
  rw [startPendingJobs.eq_def]
  split
  · rfl
  · rename_i job' rest' heq
    rw [if_neg hcond]

theorem c4_aux : ∀ (n : Nat) (st : RenderManagerState) (now : Int),
    st.render_queue.length = n →
    st.current_renders ≤ st.max_concurrent_renders →
    (((startPendingJobs st now).2.2.all
        (fun c => c ≤ st.max_concurrent_renders)) = true ∧
     (startPendingJobs st now).2.1 =
       (st.render_queue.map (·.id)).take (startPendingJobs st now).2.1.length) := by
  intro n
  induction n using Nat.strong_induction_on with
  | _ n ih =>
    intro st now hlen hle
    rcases hq : st.render_queue with _ | ⟨job, rest⟩
    · rw [startPendingJobs_nil st now hq]
      simp
    · by_cases hcond : st.current_renders < st.max_concurrent_renders
      · rw [startPendingJobs_cons_pos st now job rest hq hcond]
        have hcur := startRenderJob_current { st with render_queue := rest } job now
        have hmax := startRenderJob_max { st with render_queue := rest } job now
        have hqueue := startRenderJob_queue_eq { st with render_queue := rest } job now
        have hlen' : (startRenderJob { st with render_queue := rest } job now).1.render_queue.length
            = rest.length := by rw [hqueue]
        have hle' : (startRenderJob { st with render_queue := rest } job now).1.current_renders
            ≤ (startRenderJob { st with render_queue := rest } job now).1.max_concurrent_renders := by
          rw [hcur, hmax]; exact hle
        have hrest : rest.length < n := by
          rw [hq] at hlen
          simp at hlen
          omega
        rcases ih rest.length hrest _ now hlen' hle' with ⟨ih1, ih2⟩
        constructor
        · rw [List.all_append, startRenderJob_trace]
          simp only [List.all_cons, List.all_nil, Bool.and_true, Bool.and_eq_true,
            decide_eq_true_eq]
          refine ⟨⟨by omega, hle⟩, ?_⟩
          simp only [hmax] at ih1
          exact ih1
        · simp only [List.map_cons, List.length_cons, List.take_succ_cons]
          rw [hqueue] at ih2
          rw [← ih2]
      · rw [startPendingJobs_cons_neg st now job rest hq hcond]
        simp

/-- C4: one tick of the dispatch loop keeps the running-jobs counter at or
below the configured concurrency limit at every observed instant, and the
jobs it launches are exactly an initial segment of the queue in FIFO
submission order. -/
theorem c4_bounded_fifo_dispatch (st : RenderManagerState) (now : Int)
    (hle : st.current_renders ≤ st.max_concurrent_renders) :
    (((startPendingJobs st now).2.2.all
        (fun c => c ≤ st.max_concurrent_renders)) = true ∧
     (startPendingJobs st now).2.1 =
       (st.render_queue.map (·.id)).take (startPendingJobs st now).2.1.length) :=
  c4_aux st.render_queue.length st now rfl hle

theorem c4_witness :
    (((startPendingJobs st4 0).2.2.all
        (fun c => c ≤ st4.max_concurrent_renders)) = true ∧
     (startPendingJobs st4 0).2.1 =
       (st4.render_queue.map (·.id)).take (startPendingJobs st4 0).2.1.length) :=
  c4_bounded_fifo_dispatch st4 0 (by decide)

/-! ## Scheduler analysis: invariants of the execution loop -/

/-- Every step of the list has reached a status the loop counts as executed
(`completed`, `failed` or `skipped`). -/
def allStepsExecuted (steps : List WorkflowStep) : Bool :=
  steps.all fun s => isTerminal s.status

/-- Invariant tying `executed_steps` to the step statuses: the step ids are
distinct, `executed_steps` is a duplicate-free subset of them, and a step is
in `executed_steps` exactly when its status is terminal. -/
def ExecInv (executed : List String) (steps : List WorkflowStep) : Prop :=
  (steps.map (·.id)).Nodup ∧ executed.Nodup ∧
  (∀ id ∈ executed, id ∈ steps.map (·.id)) ∧
  (∀ s ∈ steps, (s.id ∈ executed ↔ isTerminal s.status = true))

theorem mem_readySteps {executed : List String} {steps : List WorkflowStep}
    {s : WorkflowStep} :
    s ∈ readySteps executed steps ↔
      s ∈ steps ∧ s.id ∉ executed ∧ s.status = StepStatus.pending ∧
        ∀ d ∈ s.dependencies, d ∈ executed := by
  simp [readySteps, List.mem_filter, List.all_eq_true, List.contains,
    List.elem_iff, and_assoc]

theorem updSteps_map_id (h : Handlers) (t : Int) (p : WorkflowStep → Bool)
    (steps : List WorkflowStep) :
    ((steps.map fun s => if p s then executeStep h t s else s).map (·.id))
      = steps.map (·.id) := by
  rw [List.map_map]
  refine List.map_congr_left ?_
  intro s _
  by_cases hp : p s
  · simp [hp, executeStep_id]
  · simp [hp]

theorem executedNow_eq (h : Handlers) (t : Int) (ready : List WorkflowStep) :
    (((ready.map (executeStep h t)).filter fun s => isTerminal s.status).map (·.id))
      = ready.map (·.id) := by
  have hfil : (ready.map (executeStep h t)).filter (fun s => isTerminal s.status)
      = ready.map (executeStep h t) := by
    apply List.filter_eq_self.mpr
    intro s hs
    rcases List.mem_map.mp hs with ⟨u, _, rfl⟩
    exact executeStep_terminal h t u
  rw [hfil, List.map_map]
  refine List.map_congr_left ?_
  intro s _
  exact executeStep_id h t s

theorem readyIds_sublist (executed : List String) (steps : List WorkflowStep) :
    ((readySteps executed steps).map (·.id)).Sublist (steps.map (·.id)) :=
  (List.filter_sublist steps).map (·.id)

/-- One scheduling iteration preserves the invariant. -/
theorem execInv_preserved (h : Handlers) (t : Int)
    (executed : List String) (steps : List WorkflowStep)
    (hInv : ExecInv executed steps) :
    ExecInv (executed ++ (readySteps executed steps).map (·.id))
      (steps.map fun s =>
        if ((readySteps executed steps).map (·.id)).contains s.id
        then executeStep h t s else s) := by
  obtain ⟨hndIds, hndEx, hsub, hiff⟩ := hInv
  have hsubl := readyIds_sublist executed steps
  have hndReady : ((readySteps executed steps).map (·.id)).Nodup :=
    hsubl.nodup hndIds
  have hdisj : ∀ a ∈ executed, a ∉ (readySteps executed steps).map (·.id) := by
    intro a ha hmem
    rcases List.mem_map.mp hmem with ⟨s, hsready, rfl⟩
    exact (mem_readySteps.mp hsready).2.1 ha
  refine ⟨?_, ?_, ?_, ?_⟩
  · rw [updSteps_map_id h t
      (fun s => ((readySteps executed steps).map (·.id)).contains s.id) steps]
    exact hndIds
  · exact hndEx.append hndReady hdisj
  · intro id hid
    rw [updSteps_map_id]
    rcases List.mem_append.mp hid with h1 | h2
    · exact hsub id h1
    · exact hsubl.subset h2
  · intro s' hs'
    rcases List.mem_map.mp hs' with ⟨s, hs, rfl⟩
    by_cases hc : ((readySteps executed steps).map (·.id)).contains s.id
    · have hmem : s.id ∈ (readySteps executed steps).map (·.id) :=
        List.elem_iff.mp hc
      simp only [hc, if_true]
      rw [executeStep_id]
      exact iff_of_true (List.mem_append_right _ hmem) (executeStep_terminal h t s)
    · have hnmem : s.id ∉ (readySteps executed steps).map (·.id) := by
        intro hmem
        exact hc (List.elem_iff.mpr hmem)
      simp only [hc, if_false]
      rw [List.mem_append]
      constructor
      · intro hor
        rcases hor with h1 | h2
        · exact (hiff s hs).mp h1
        · exact absurd h2 hnmem
      · intro hterm
        exact Or.inl ((hiff s hs).mpr hterm)

theorem allExecuted_of_length_le (executed : List String)
    (steps : List WorkflowStep) (hInv : ExecInv executed steps)
    (hge : steps.length ≤ executed.length) :
    allStepsExecuted steps = true := by
  obtain ⟨hndIds, hndEx, hsub, hiff⟩ := hInv
  have hperm := (hndEx.subperm (fun a ha => hsub a ha)).perm_of_length_le
    (by simpa using hge)
  refine List.all_eq_true.mpr ?_
  intro s hs
  exact (hiff s hs).mp (hperm.mem_iff.mpr (List.mem_map_of_mem (·.id) hs))

theorem notAllExecuted_of_lt (executed : List String)
    (steps : List WorkflowStep) (hInv : ExecInv executed steps)
    (hlt : executed.length < steps.length) :
    allStepsExecuted steps = false := by
  obtain ⟨hndIds, hndEx, hsub, hiff⟩ := hInv
  cases hb : allStepsExecuted steps
  · rfl
  · exfalso
    have hcov : ∀ x ∈ steps.map (·.id), x ∈ executed := by
      intro x hx
      rcases List.mem_map.mp hx with ⟨s, hs, rfl⟩
      exact (hiff s hs).mpr (List.all_eq_true.mp hb s hs)
    have := (hndIds.subperm (fun a ha => hcov a ha)).length_le
    simp only [List.length_map] at this
    omega

/-- Reduction of one recursive iteration of the loop (ready set non-empty). -/
theorem stepLoop_succ_rec (h : Handlers) (t : Int) (fuel : Nat)
    (executed launched : List String) (wf : Workflow)
    (hlt : executed.length < wf.steps.length)
    (hempty : ¬ (readySteps executed wf.steps).isEmpty = true) :
    stepLoop h t (fuel + 1) executed launched wf =
      stepLoop h t fuel
        (executed ++ (readySteps executed wf.steps).map (·.id))
        (launched ++ (readySteps executed wf.steps).map (·.id))
        { wf with steps := wf.steps.map fun s =>
            if ((readySteps executed wf.steps).map (·.id)).contains s.id
            then executeStep h t s else s } := by
  simp only [stepLoop]
  rw [if_pos hlt, if_neg hempty, executedNow_eq]

/-- Reduction of the two break branches (ready set empty). -/
theorem stepLoop_succ_break (h : Handlers) (t : Int) (fuel : Nat)
    (executed launched : List String) (wf : Workflow)
    (hlt : executed.length < wf.steps.length)
    (hempty : (readySteps executed wf.steps).isEmpty = true) :
    stepLoop h t (fuel + 1) executed launched wf =
      (if (failedStepsOf wf.steps).isEmpty then
        ({ wf with status := WorkflowStatus.failed,
                   error_message := some deadlockMessage }, launched)
       else
        ({ wf with status := WorkflowStatus.failed,
                   error_message := some (failedMessage (failedStepsOf wf.steps)) },
         launched)) := by
  simp only [stepLoop]
  rw [if_pos hlt, if_pos hempty]

/-- Reduction of the loop exit (all steps counted as executed). -/
theorem stepLoop_succ_exit (h : Handlers) (t : Int) (fuel : Nat)
    (executed launched : List String) (wf : Workflow)
    (hlt : ¬ executed.length < wf.steps.length) :
    stepLoop h t (fuel + 1) executed launched wf = (wf, launched) := by
  simp only [stepLoop]
  rw [if_neg hlt]

/-- Under the invariant, with enough fuel, the loop either finishes with all
steps executed (status and error message untouched), or breaks with status
`failed`, not all steps executed, and the error message determined by
whether any step has failed. -/
theorem stepLoop_cases (h : Handlers) (t : Int) :
    ∀ (fuel : Nat) (executed launched : List String) (wf : Workflow),
    ExecInv executed wf.steps →
    wf.steps.length < executed.length + fuel →
    (((stepLoop h t fuel executed launched wf).1.status = wf.status ∧
      (stepLoop h t fuel executed launched wf).1.error_message = wf.error_message ∧
      allStepsExecuted (stepLoop h t fuel executed launched wf).1.steps = true)
    ∨
     ((stepLoop h t fuel executed launched wf).1.status = WorkflowStatus.failed ∧
      allStepsExecuted (stepLoop h t fuel executed launched wf).1.steps = false ∧
      (stepLoop h t fuel executed launched wf).1.error_message =
        some (cond (failedStepsOf (stepLoop h t fuel executed launched wf).1.steps).isEmpty
              deadlockMessage
              (failedMessage
                (failedStepsOf (stepLoop h t fuel executed launched wf).1.steps))))) := by
  intro fuel
  induction fuel with
  | zero =>
      intro executed launched wf hInv hfuel
      left
      refine ⟨rfl, rfl, ?_⟩
      exact allExecuted_of_length_le executed wf.steps hInv (by omega)
  | succ fuel ih =>
      intro executed launched wf hInv hfuel
      by_cases hlt : executed.length < wf.steps.length
      · by_cases hempty : (readySteps executed wf.steps).isEmpty
        · rw [stepLoop_succ_break h t fuel executed launched wf hlt hempty]
          right
          by_cases hfail : (failedStepsOf wf.steps).isEmpty
          · rw [if_pos hfail]
            refine ⟨rfl, notAllExecuted_of_lt executed wf.steps hInv hlt, ?_⟩
            simp [hfail]
          · rw [if_neg hfail]
            refine ⟨rfl, notAllExecuted_of_lt executed wf.steps hInv hlt, ?_⟩
            rw [Bool.not_eq_true] at hfail
            simp [hfail]
        · rw [stepLoop_succ_rec h t fuel executed launched wf hlt hempty]
          have hne : readySteps executed wf.steps ≠ [] := by
            intro hnil
            rw [hnil] at hempty
            exact hempty rfl
          have hInv' := execInv_preserved h t executed wf.steps hInv
          have hbound :
              ({ wf with steps := wf.steps.map fun s =>
                  if ((readySteps executed wf.steps).map (·.id)).contains s.id
                  then executeStep h t s else s } : Workflow).steps.length <
                (executed ++ (readySteps executed wf.steps).map (·.id)).length + fuel := by
            have hlen1 : 1 ≤ (readySteps executed wf.steps).length :=
              List.length_pos.mpr hne
            simp only [List.length_map, List.length_append]
            omega
          exact ih _ _ _ hInv' hbound
      · rw [stepLoop_succ_exit h t fuel executed launched wf hlt]
        left
        refine ⟨rfl, rfl, ?_⟩
        exact allExecuted_of_length_le executed wf.steps hInv (by omega)

/-! ## Claim C1 -/

/-- C1 (amended): executed to a terminal state without an out-of-band
cancel, the workflow finishes `completed` exactly when every step reached a
terminal status (`completed` or `failed`) — individual step failures do not
make the workflow `failed`, because `executed_steps` counts failed steps as
executed; the workflow is `failed` only when scheduling stalls with
unexecuted steps remaining. -/
theorem c1_completed_iff_all_executed (h : Handlers) (t : Int) (fuel : Nat)
    (wf : Workflow)
    (hnd : (wf.steps.map (·.id)).Nodup)
    (hpend : ∀ s ∈ wf.steps, s.status = StepStatus.pending)
    (hfuel : wf.steps.length < fuel) :
    ((executeWorkflow h t fuel wf).1.status = WorkflowStatus.completed ∨
     (executeWorkflow h t fuel wf).1.status = WorkflowStatus.failed) ∧
    ((executeWorkflow h t fuel wf).1.status = WorkflowStatus.completed ↔
     allStepsExecuted (executeWorkflow h t fuel wf).1.steps = true) := by
  have hInv : ExecInv [] ({ wf with status := WorkflowStatus.running } : Workflow).steps := by
    refine ⟨hnd, List.nodup_nil, by simp, ?_⟩
    intro s hs
    rw [hpend s hs]
    simp [isTerminal]
  have hcase := stepLoop_cases h t fuel [] []
    { wf with status := WorkflowStatus.running } hInv (by simpa using hfuel)
  rcases hcase with ⟨h1, _, h3⟩ | ⟨h1, h2, _⟩
  · have hrun : (stepLoop h t fuel [] []
        { wf with status := WorkflowStatus.running }).1.status
        = WorkflowStatus.running := h1
    simp only [executeWorkflow]
    rw [if_pos (show _ = WorkflowStatus.running from hrun)]
    exact ⟨Or.inl rfl, iff_of_true rfl h3⟩
  · simp only [executeWorkflow]
    rw [if_neg (show ¬ _ = WorkflowStatus.running by rw [h1]; intro hcon; cases hcon)]
    refine ⟨Or.inr h1, iff_of_false (fun hcomp => ?_) (fun hall => ?_)⟩
    · rw [h1] at hcomp
      cases hcomp
    · rw [h2] at hall
      cases hall

theorem c1_witness :
    ((executeWorkflow failA 0 3 wfAB).1.status = WorkflowStatus.completed ∨
     (executeWorkflow failA 0 3 wfAB).1.status = WorkflowStatus.failed) ∧
    ((executeWorkflow failA 0 3 wfAB).1.status = WorkflowStatus.completed ↔
     allStepsExecuted (executeWorkflow failA 0 3 wfAB).1.steps = true) :=
  c1_completed_iff_all_executed failA 0 3 wfAB (by decide) (by decide) (by decide)

/-! ## Claim C7 -/

/-- A non-empty set of step ids none of whose members can ever become ready:
each one depends on another member or on an id outside the graph.  A
dependency cycle yields such a set (its members), as does a step depending
on a step not in the graph. -/
def Blocked (steps : List WorkflowStep) (S : List String) : Prop :=
  S ≠ [] ∧ (∀ id ∈ S, id ∈ steps.map (·.id)) ∧
  (∀ s ∈ steps, s.id ∈ S →
    ∃ d ∈ s.dependencies, d ∈ S ∨ d ∉ steps.map (·.id))

theorem blocked_preserved (h : Handlers) (t : Int) (p : WorkflowStep → Bool)
    (steps : List WorkflowStep) (S : List String) (hB : Blocked steps S) :
    Blocked (steps.map fun s => if p s then executeStep h t s else s) S := by
  obtain ⟨hne, hsub, hdep⟩ := hB
  refine ⟨hne, ?_, ?_⟩
  · intro id hid
    rw [updSteps_map_id]
    exact hsub id hid
  · intro s' hs' hid
    rcases List.mem_map.mp hs' with ⟨s, hs, rfl⟩
    rw [updSteps_map_id]
    by_cases hp : p s
    · simp only [hp, if_true] at hid ⊢
      rw [executeStep_id] at hid
      rw [executeStep_deps]
      exact hdep s hs hid
    · simp only [hp, if_false] at hid ⊢
      exact hdep s hs hid

/-- With a blocked set present, the loop can never execute every step: it
breaks with status `failed` and the break-branch error message. -/
theorem stepLoop_blocked (h : Handlers) (t : Int) :
    ∀ (fuel : Nat) (executed launched : List String) (wf : Workflow)
      (S : List String),
    ExecInv executed wf.steps →
    Blocked wf.steps S →
    (∀ id ∈ S, id ∉ executed) →
    wf.steps.length < executed.length + fuel →
    ((stepLoop h t fuel executed launched wf).1.status = WorkflowStatus.failed ∧
     (stepLoop h t fuel executed launched wf).1.error_message =
       some (cond (failedStepsOf (stepLoop h t fuel executed launched wf).1.steps).isEmpty
             deadlockMessage
             (failedMessage
               (failedStepsOf (stepLoop h t fuel executed launched wf).1.steps)))) := by
  intro fuel
  induction fuel with
  | zero =>
      intro executed launched wf S hInv hB hdisj hfuel
      exfalso
      obtain ⟨hndIds, hndEx, hsub, hiff⟩ := hInv
      have hle : executed.length ≤ wf.steps.length := by
        have := (hndEx.subperm (fun a ha => hsub a ha)).length_le
        simpa using this
      omega
  | succ fuel ih =>
      intro executed launched wf S hInv hB hdisj hfuel
      have hlt : executed.length < wf.steps.length := by
        obtain ⟨hne, hsubS, _⟩ := hB
        obtain ⟨hndIds, hndEx, hsub, _⟩ := hInv
        rcases hS : S with _ | ⟨id0, S'⟩
        · exact absurd hS hne
        have hid0ids : id0 ∈ wf.steps.map (·.id) := by
          refine hsubS id0 ?_
          rw [hS]
          exact List.mem_cons_self id0 S'
        have hid0nex : id0 ∉ executed := by
          refine hdisj id0 ?_
          rw [hS]
          exact List.mem_cons_self id0 S'
        have hnd2 : (executed ++ [id0]).Nodup := by
          refine hndEx.append (List.nodup_singleton id0) ?_
          intro a ha hb
          rw [List.mem_singleton] at hb
          subst hb
          exact hid0nex ha
        have hsub2 : ∀ a ∈ executed ++ [id0], a ∈ wf.steps.map (·.id) := by
          intro a ha
          rcases List.mem_append.mp ha with h1 | h2
          · exact hsub a h1
          · rw [List.mem_singleton] at h2
            subst h2
            exact hid0ids
        have := (hnd2.subperm (fun a ha => hsub2 a ha)).length_le
        simp only [List.length_append, List.length_singleton, List.length_map] at this
        omega
      by_cases hempty : (readySteps executed wf.steps).isEmpty
      · rw [stepLoop_succ_break h t fuel executed launched wf hlt hempty]
        by_cases hfail : (failedStepsOf wf.steps).isEmpty
        · rw [if_pos hfail]
          refine ⟨rfl, ?_⟩
          simp [hfail]
        · rw [if_neg hfail]
          refine ⟨rfl, ?_⟩
          rw [Bool.not_eq_true] at hfail
          simp [hfail]
      · rw [stepLoop_succ_rec h t fuel executed launched wf hlt hempty]
        have hne : readySteps executed wf.steps ≠ [] := by
          intro hnil
          rw [hnil] at hempty
          exact hempty rfl
        have hInv' := execInv_preserved h t executed wf.steps hInv
        have hB' := blocked_preserved h t
          (fun s => ((readySteps executed wf.steps).map (·.id)).contains s.id)
          wf.steps S hB
        have hdisj' : ∀ id ∈ S,
            id ∉ executed ++ (readySteps executed wf.steps).map (·.id) := by
          intro id hidS hmem
          rcases List.mem_append.mp hmem with h1 | h2
          · exact hdisj id hidS h1
          · rcases List.mem_map.mp h2 with ⟨s, hsready, rfl⟩
            have hrs := mem_readySteps.mp hsready
            obtain ⟨_, _, hdep⟩ := hB
            rcases hdep s hrs.1 hidS with ⟨d, hd, hc⟩
            have hdex : d ∈ executed := hrs.2.2.2 d hd
            rcases hc with hdS | hdnotin
            · exact hdisj d hdS hdex
            · obtain ⟨_, _, hsub, _⟩ := hInv
              exact hdnotin (hsub d hdex)
        have hbound :
            ({ wf with steps := wf.steps.map fun s =>
                if ((readySteps executed wf.steps).map (·.id)).contains s.id
                then executeStep h t s else s } : Workflow).steps.length <
              (executed ++ (readySteps executed wf.steps).map (·.id)).length + fuel := by
          have hlen1 : 1 ≤ (readySteps executed wf.steps).length :=
            List.length_pos.mpr hne
          simp only [List.length_map, List.length_append]
          omega
        exact ih _ _ _ S hInv' hB' hdisj' hbound

/-- C7 (amended): for a workflow containing a blocked set of steps (a
dependency cycle or a dependency on a step outside the graph), the execution
loop terminates within `|steps| + 1` iterations (any `fuel > |steps|` gives
the terminal result) and the workflow is `failed`; the error message is the
deadlock message when no step has failed during execution, and otherwise the
failed-steps message naming the failed steps. -/
theorem c7_blocked_graph_fails (h : Handlers) (t : Int) (fuel : Nat)
    (wf : Workflow) (S : List String)
    (hnd : (wf.steps.map (·.id)).Nodup)
    (hpend : ∀ s ∈ wf.steps, s.status = StepStatus.pending)
    (hB : Blocked wf.steps S)
    (hfuel : wf.steps.length < fuel) :
    (executeWorkflow h t fuel wf).1.status = WorkflowStatus.failed ∧
    (executeWorkflow h t fuel wf).1.error_message =
      some (cond (failedStepsOf (executeWorkflow h t fuel wf).1.steps).isEmpty
            deadlockMessage
            (failedMessage (failedStepsOf (executeWorkflow h t fuel wf).1.steps))) := by
  have hInv : ExecInv [] ({ wf with status := WorkflowStatus.running } : Workflow).steps := by
    refine ⟨hnd, List.nodup_nil, by simp, ?_⟩
    intro s hs
    rw [hpend s hs]
    simp [isTerminal]
  have hres := stepLoop_blocked h t fuel [] []
    { wf with status := WorkflowStatus.running } S hInv hB
    (fun id _ hmem => absurd hmem (List.not_mem_nil id)) (by simpa using hfuel)
  simp only [executeWorkflow]
  rw [if_neg (show ¬ _ = WorkflowStatus.running by rw [hres.1]; intro hcon; cases hcon)]
  exact ⟨hres.1, hres.2⟩

theorem c7_witness :
    (executeWorkflow failA 0 4 wfCyc).1.status = WorkflowStatus.failed ∧
    (executeWorkflow failA 0 4 wfCyc).1.error_message =
      some (cond (failedStepsOf (executeWorkflow failA 0 4 wfCyc).1.steps).isEmpty
            deadlockMessage
            (failedMessage (failedStepsOf (executeWorkflow failA 0 4 wfCyc).1.steps))) :=
  c7_blocked_graph_fails failA 0 4 wfCyc ["B", "C"] (by decide) (by decide)
    (by refine ⟨by decide, by decide, ?_⟩
        decide)
    (by decide)

/-! ## Claim C2 -/

/-- The dependency list a workflow's step dict associates to a step id. -/
def depsOf (steps : List WorkflowStep) (id : String) : List String :=
  match steps.find? (fun s => s.id == id) with
  | some s => s.dependencies
  | none => []

/-- `launchOrderOK D acc l` checks that every id in `l` is launched only
after all of its dependencies (as given by `D`) are already in the
accumulated executed set `acc` extended by the ids launched before it. -/
def launchOrderOK (D : String → List String) : List String → List String → Bool
  | _, [] => true
  | acc, x :: rest =>
      (D x).all (fun d => acc.contains d) && launchOrderOK D (acc ++ [x]) rest

/-- `D` agrees with the dependency lists of the steps. -/
def DepAgree (D : String → List String) (steps : List WorkflowStep) : Prop :=
  ∀ s ∈ steps, D s.id = s.dependencies

theorem launchOrderOK_append (D : String → List String) :
    ∀ (xs acc ys : List String),
    launchOrderOK D acc (xs ++ ys)
      = (launchOrderOK D acc xs && launchOrderOK D (acc ++ xs) ys) := by
  intro xs
  induction xs with
  | nil => intro acc ys; simp [launchOrderOK]
  | cons x xs ihx =>
      intro acc ys
      simp only [List.cons_append, launchOrderOK, List.append_eq]
      rw [ihx (acc ++ [x]) ys, Bool.and_assoc, List.append_cons]
      simp

theorem launchOrderOK_of_all (D : String → List String) :
    ∀ (xs acc : List String),
    (∀ x ∈ xs, ∀ d ∈ D x, d ∈ acc) →
    launchOrderOK D acc xs = true := by
  intro xs
  induction xs with
  | nil => intro acc _; rfl
  | cons x xs ihx =>
      intro acc hall
      simp only [launchOrderOK, Bool.and_eq_true]
      constructor
      · refine List.all_eq_true.mpr ?_
        intro d hd
        exact List.elem_iff.mpr (hall x (List.mem_cons_self x xs) d hd)
      · refine ihx (acc ++ [x]) ?_
        intro x' hx' d hd
        exact List.mem_append_left _ (hall x' (List.mem_cons_of_mem x hx') d hd)

theorem depAgree_preserved (h : Handlers) (t : Int) (D : String → List String)
    (p : WorkflowStep → Bool) (steps : List WorkflowStep)
    (hDA : DepAgree D steps) :
    DepAgree D (steps.map fun s => if p s then executeStep h t s else s) := by
  intro s' hs'
  rcases List.mem_map.mp hs' with ⟨s, hs, rfl⟩
  by_cases hp : p s
  · simp only [hp, if_true]
    rw [executeStep_id, executeStep_deps]
    exact hDA s hs
  · simp only [hp, if_false]
    exact hDA s hs

theorem depsOf_self :
    ∀ (steps : List WorkflowStep), (steps.map (·.id)).Nodup →
    ∀ s ∈ steps, depsOf steps s.id = s.dependencies := by
  intro steps
  induction steps with
  | nil => intro _ s hs; cases hs
  | cons a rest iha =>
      intro hnd s hs
      have hparts : (∀ x ∈ rest, ¬ x.id = a.id) ∧ ((rest.map (·.id)).Nodup) := by
        simpa using hnd
      rcases List.mem_cons.mp hs with rfl | hs'
      · unfold depsOf
        rw [List.find?_cons_of_pos _ (by simp)]
      · have hne : ¬ (a.id == s.id) = true := by
          simp only [beq_iff_eq]
          intro hxe
          exact hparts.1 s hs' hxe.symm
        have hrec := iha hparts.2 s hs'
        unfold depsOf at hrec ⊢
        rw [@List.find?_cons_of_neg _ (fun x => x.id == s.id) a rest hne]
        exact hrec

/-- Every launched step's dependencies were already executed at launch time:
the launch list of the loop extends the accumulator by ids whose `D`-given
dependencies are in the executed set built so far. -/
theorem stepLoop_launch_order (h : Handlers) (t : Int) (D : String → List String) :
    ∀ (fuel : Nat) (executed launched : List String) (wf : Workflow),
    DepAgree D wf.steps →
    ∃ delta, (stepLoop h t fuel executed launched wf).2 = launched ++ delta ∧
             launchOrderOK D executed delta = true := by
  intro fuel
  induction fuel with
  | zero => intro executed launched wf _; exact ⟨[], by simp [stepLoop], rfl⟩
  | succ fuel ih =>
      intro executed launched wf hDA
      by_cases hlt : executed.length < wf.steps.length
      · by_cases hempty : (readySteps executed wf.steps).isEmpty
        · refine ⟨[], ?_, rfl⟩
          rw [stepLoop_succ_break h t fuel executed launched wf hlt hempty]
          split <;> simp
        · rw [stepLoop_succ_rec h t fuel executed launched wf hlt hempty]
          have hDA' := depAgree_preserved h t D
            (fun s => ((readySteps executed wf.steps).map (·.id)).contains s.id)
            wf.steps hDA
          rcases ih (executed ++ (readySteps executed wf.steps).map (·.id))
            (launched ++ (readySteps executed wf.steps).map (·.id))
            { wf with steps := wf.steps.map fun s =>
                if ((readySteps executed wf.steps).map (·.id)).contains s.id
                then executeStep h t s else s } hDA' with ⟨delta', hd1, hd2⟩
          refine ⟨(readySteps executed wf.steps).map (·.id) ++ delta', ?_, ?_⟩
          · rw [hd1, List.append_assoc]
          · rw [launchOrderOK_append]
            refine (Bool.and_eq_true _ _).mpr ⟨?_, hd2⟩
            refine launchOrderOK_of_all D _ executed ?_
            intro x hx d hd
            rcases List.mem_map.mp hx with ⟨s, hsready, rfl⟩
            have hrs := mem_readySteps.mp hsready
            rw [hDA s hrs.1] at hd
            exact hrs.2.2.2 d hd
      · refine ⟨[], ?_, rfl⟩
        rw [stepLoop_succ_exit h t fuel executed launched wf hlt]
        simp

/-- C2 (amended): a step becomes ready, and is launched, exactly once all of
its declared dependencies have been executed — reached `completed`, `failed`
or `skipped` — not necessarily `completed`; in the launch order produced by
the loop, every step's dependencies were executed before it.  Consequently a
step whose dependency failed is still launched (see the counterexample). -/
theorem c2_launch_respects_executed_deps (h : Handlers) (t : Int) (fuel : Nat)
    (wf : Workflow) (hnd : (wf.steps.map (·.id)).Nodup) :
    launchOrderOK (depsOf wf.steps) [] (executeWorkflow h t fuel wf).2 = true := by
  have hDA : DepAgree (depsOf wf.steps)
      ({ wf with status := WorkflowStatus.running } : Workflow).steps :=
    fun s hs => depsOf_self wf.steps hnd s hs
  rcases stepLoop_launch_order h t (depsOf wf.steps) fuel [] []
    { wf with status := WorkflowStatus.running } hDA with ⟨delta, h1, h2⟩
  have hsnd : (executeWorkflow h t fuel wf).2
      = (stepLoop h t fuel [] [] { wf with status := WorkflowStatus.running }).2 := by
    simp only [executeWorkflow]
    split <;> rfl
  rw [hsnd, h1]
  simpa using h2

theorem c2_witness :
    launchOrderOK (depsOf wfAB.steps) [] (executeWorkflow failA 0 3 wfAB).2 = true :=
  c2_launch_respects_executed_deps failA 0 3 wfAB (by decide)
